import Mathlib

/-!
Verification of the timestamp-standardization and timeline-merge core of
`data_standardization/standardize_health_data.py`.

Shallow embedding conventions:

* An instant is measured in whole seconds.  A pandas `Timestamp` as produced
  by `pd.to_datetime` is modelled by `ParsedTime`: the wall-clock value in
  seconds together with an optional fixed UTC offset in seconds
  (`none` models a timezone-naive value).
* `pd.Series.dt.round` with frequency `min` rounds the underlying instant
  to the nearest multiple of 60 seconds, resolving ties by rounding the
  minute count half to even (the pandas `round` convention).
* A cell of the timestamp column is an `Option ParsedTime`: `none` models
  NaT, which `pd.to_datetime` produces for a missing value instead of
  raising, which passes unchanged through timezone handling and rounding,
  and which compares unequal to everything — itself included — in the
  displacement comparison.
* A pandas DataFrame is modelled by `DataFrame`: an ordered list of column
  names and a list of rows, each row an ordered list of `Value`s.
-/

/-- A parsed timestamp: wall-clock seconds plus an optional timezone offset
(seconds east of UTC).  `offset = none` models a timezone-naive value. -/
structure ParsedTime where
  wall : Int
  offset : Option Int
deriving DecidableEq

/-- A timezone-aware value tagged UTC (result of `tz_localize` and
`tz_convert` with argument UTC); only its instant is observable. -/
structure UtcTagged where
  utc : Int
deriving DecidableEq

/-- `Series.dt.round` with frequency `min`: round seconds to the nearest
multiple of 60, ties on the minute count resolved half to even. -/
def roundMin (s : Int) : Int :=
  if s % 60 < 30 then s / 60 * 60
  else if 30 < s % 60 then (s / 60 + 1) * 60
  else if s / 60 % 2 = 0 then s / 60 * 60
  else (s / 60 + 1) * 60

/-- Lines 35-38 and 42-44 of the source: a naive value is localized to UTC
(wall clock taken as the UTC instant), an aware value is converted to UTC. -/
def tz_to_utc (p : ParsedTime) : UtcTagged :=
  match p.offset with
  | none => { utc := p.wall }
  | some o => { utc := p.wall - o }

/-- Rounding a UTC-tagged column (line 39). -/
def utc_round_min (t : UtcTagged) : UtcTagged :=
  { utc := roundMin t.utc }

/-- Lines 34-39: the UTC-anchored, minute-rounded reference value kept for
the displacement comparison. -/
def orig_utc_ref (p : ParsedTime) : UtcTagged :=
  utc_round_min (tz_to_utc p)

/-- Line 44, `tz_localize(None)`: strip the UTC tag, keeping the instant. -/
def tz_localize_none (t : UtcTagged) : Int :=
  t.utc

/-- Lines 42-47: the final Canonical Timestamp of one parsed value:
localize or convert to UTC, strip the tag, round to the nearest minute. -/
def canonical_naive (p : ParsedTime) : Int :=
  roundMin (tz_localize_none (tz_to_utc p))

/-- Line 52, `pd.Timestamp(final).tz_localize(UTC)`: re-attach the UTC tag
to a final (naive) value for the displacement comparison. -/
def relocalize_utc (w : Int) : UtcTagged :=
  { utc := w }

/-- A cell of the parsed timestamp column is either an actual instant or
NaT (`none`): `pd.to_datetime` turns a missing raw cell into NaT rather
than raising, and NaT passes through `tz_localize`, `tz_convert` and
`round` unchanged.  The reference value of lines 34-39 for one cell. -/
def orig_utc_cell (c : Option ParsedTime) : Option UtcTagged :=
  (c.map tz_to_utc).map utc_round_min

/-- The final canonical value of lines 42-47 for one cell: NaT stays NaT,
an actual instant is localized or converted to UTC, stripped and
minute-rounded. -/
def canonical_cell (c : Option ParsedTime) : Option Int :=
  c.map canonical_naive

/-- The pandas inequality used at line 52 on nullable timestamps: NaT
compares unequal to everything, itself included (NaN semantics). -/
def ne_pandas : Option UtcTagged → Option UtcTagged → Bool
  | some x, some y => decide (x ≠ y)
  | _, _ => true

/-- One displacement record (lines 53-59).  The original and reference
fields are NaT-able; `difference_seconds` is `none` when the subtraction
involves NaT (NaN in the source). -/
structure Adjustment where
  index : Nat
  original : Option ParsedTime
  original_utc : Option UtcTagged
  final : Option Int
  difference_seconds : Option Int
deriving DecidableEq

/-- Lines 50-59: walk the zipped reference and final columns and record
every row where the pandas comparison deems them different.  For a NaT
row both sides are NaT and `NaT != NaT` is True, so a record is
appended. -/
def standardize_adjs_from (i : Nat) : List (Option ParsedTime) → List Adjustment
  | [] => []
  | c :: cs =>
    let orig := orig_utc_cell c
    let finU := Option.map relocalize_utc (canonical_cell c)
    if ne_pandas orig finU then
      { index := i, original := c, original_utc := orig,
        final := canonical_cell c,
        difference_seconds :=
          match finU, orig with
          | some f, some o => some (f.utc - o.utc)
          | _, _ => none }
        :: standardize_adjs_from (i + 1) cs
    else
      standardize_adjs_from (i + 1) cs

/-- The full displacement-record list of a column. -/
def standardize_adjs (cs : List (Option ParsedTime)) : List Adjustment :=
  standardize_adjs_from 0 cs

/-- Line 71: classification of a displacement record (a NaN difference is
not greater than zero, so a NaT record classifies as round_down). -/
def adjustment_type (a : Adjustment) : String :=
  match a.difference_seconds with
  | some d => if 0 < d then "round_up" else "round_down"
  | none => "round_down"

/-- Whether a parsed column's actual values have one uniform
timezone-awareness: all naive or all carrying one identical offset
(NaT cells are compatible with either dtype and do not count). -/
def uniform_vals (ps : List ParsedTime) : Bool :=
  ps.all (fun p => p.offset.isNone) ||
    (match ps with
     | [] => true
     | p :: _ => p.offset.isSome && ps.all (fun q => q.offset == p.offset))

/-- `pd.to_datetime(column, format=mixed)` followed by the `.dt` accesses of
lines 34-44.  Each element is parsed on its own, so mixed formats are fine
and a missing cell simply becomes NaT, but the resulting column only has a
datetime dtype when the actual values are uniformly naive or uniformly
carry one identical offset; a column mixing aware and naive values (or
mixing distinct offsets) comes back with object dtype, on which the
subsequent `.dt` accessor raises. -/
def uniform_tz (xs : List (Option ParsedTime)) : Bool :=
  uniform_vals (xs.filterMap id)

/-- Element-wise parsing step of `_standardize_timestamp` (lines 30-31),
returning the parsed column (NaT cells included) when the `.dt` accessor
work that follows it can succeed, and `none` when the code would raise. -/
def to_datetime_mixed (xs : List (Option ParsedTime)) :
    Option (List (Option ParsedTime)) :=
  if uniform_tz xs then some xs else none

/-- `_standardize_timestamp` restricted to the timestamp column itself
(lines 29-76): parse, then produce the canonical (naive, minute-rounded)
column — NaT cells staying NaT — together with the displacement records
computed on the way. -/
def standardize_result (xs : List (Option ParsedTime)) :
    Option (List (Option ParsedTime) × List Adjustment) :=
  match to_datetime_mixed xs with
  | none => none
  | some parsed =>
      some (parsed.map (fun c =>
              c.map (fun p => { wall := canonical_naive p, offset := none })),
            standardize_adjs parsed)

/-- Line 19 of the source: the fixed priority list of candidate timestamp
column names. -/
def date_candidates : List String :=
  ["date", "timestamp", "creation_date", "recorded_time", "sleep_start", "sleep_end"]

/-- Lines 18-25: resolve the timestamp column of a frame by scanning the
fixed candidate list in order and picking the first candidate present. -/
def resolve_date_col (cols : List String) : Option String :=
  date_candidates.find? (fun c => cols.contains c)

/-- A cell of a DataFrame.  `missing` models NaN / NaT. -/
inductive Value where
  | num (n : Int)
  | str (s : String)
  | time (p : ParsedTime)
  | missing
deriving DecidableEq

/-- A pandas DataFrame: ordered column names and rows of cells. -/
structure DataFrame where
  cols : List String
  rows : List (List Value)
deriving DecidableEq

/-- Position of a named column (pandas raises if it is absent; callers of
the merge always pass present keys, and `colIdx` then equals `indexOf`). -/
def colIdx (cols : List String) (c : String) : Nat :=
  List.findIdx (fun d => d == c) cols

/-- The cell of a row at a column position. -/
def cellAt (row : List Value) (j : Nat) : Value :=
  row.getD j Value.missing

/-- `List.eraseIdx` specialised by name for readability: dropping the
collapsed right key column from a row or column list. -/
def dropIdx (j : Nat) (l : List α) : List α :=
  List.eraseIdx l j

/-- `pd.merge(L, R, left_on=lkey, right_on=rkey, how=left, suffixes=(sl, sr))`.

Row semantics: every left row, in order, paired with each right row whose
key cell equals its key cell (in right order); a left row with no match is
kept once, padded with missing cells for all right columns.

Column semantics: when the two key names are equal pandas collapses them
into the single left key column; otherwise both are kept.  Every remaining
right column whose name also occurs on the left is suffixed with `sr`, and
every left column whose name also occurs among the remaining right columns
is suffixed with `sl` (the source passes an empty left suffix for the
secondary joins, leaving left names unchanged). -/
def merge_left (L R : DataFrame) (lkey rkey sl sr : String) : DataFrame :=
  let lIdx := colIdx L.cols lkey
  let rIdx := colIdx R.cols rkey
  let collapse := rkey == lkey
  let rcols := if collapse then dropIdx rIdx R.cols else R.cols
  let rrow := fun (rr : List Value) => if collapse then dropIdx rIdx rr else rr
  let lcols2 := L.cols.map (fun c => if rcols.contains c then c ++ sl else c)
  let rcols2 := rcols.map (fun c => if L.cols.contains c then c ++ sr else c)
  let rows := L.rows.flatMap (fun lr =>
    let ms := R.rows.filter (fun rr => cellAt rr rIdx == cellAt lr lIdx)
    if ms.isEmpty then [lr ++ List.replicate rcols.length Value.missing]
    else ms.map (fun rr => lr ++ rrow rr))
  { cols := lcols2 ++ rcols2, rows := rows }

/-- Substring test on character lists (the Python `in` operator on str). -/
def isSubList : List Char → List Char → Bool
  | needle, [] => needle.isEmpty
  | needle, c :: t => needle.isPrefixOf (c :: t) || isSubList needle t

/-- The Python `str.lower()` (ASCII case folding on column names). -/
def lowerStr (s : String) : String :=
  String.mk (s.data.map Char.toLower)

/-- `term in col.lower()` for the three search terms of line 271. -/
def isTimeLike (c : String) : Bool :=
  ["time", "date", "timestamp"].any
    (fun t => isSubList t.data (lowerStr c).data)

/-- Lines 270-272: the time-like columns of a frame, in column order. -/
def merger_time_cols (cols : List String) : List String :=
  cols.filter isTimeLike

/-- The key cells of a frame in a given column, row by row. -/
def keyColumn (df : DataFrame) (c : String) : List Value :=
  df.rows.map (fun rr => cellAt rr (colIdx df.cols c))

/-- Lines 292: the kept `(position, name)` pairs of
`df.loc[:, not columns.duplicated()]` — a column position is kept when its
name has not occurred earlier. -/
def keptCols : List String → Nat → List String → List (Nat × String)
  | [], _, _ => []
  | c :: t, j, seen =>
    if seen.contains c then keptCols t (j + 1) seen
    else (j, c) :: keptCols t (j + 1) (c :: seen)

/-- Line 292: drop later columns whose name already occurred. -/
def dedup_columns (df : DataFrame) : DataFrame :=
  let ks := keptCols df.cols 0 []
  { cols := ks.map (fun p => p.2),
    rows := df.rows.map (fun r => ks.map (fun p => cellAt r p.1)) }

/-- Lines 262-289: successively left-join every secondary series onto the
accumulated frame.  A series with no rows is skipped; the join key is the
first time-like column, and a series without one is silently skipped. -/
def merge_others (acc : DataFrame) : List (String × DataFrame) → DataFrame
  | [] => acc
  | (name, df) :: rest =>
    let acc2 :=
      if df.rows.isEmpty then acc
      else
        match merger_time_cols df.cols with
        | [] => acc
        | c :: _ => merge_left acc df "timestamp" c "" ("_" ++ name)
    merge_others acc2 rest

/-- Lines 237-302, `merge_all_data`: join the primary (blood glucose)
series onto the timeline with the default suffixes, then every other
registered series in order, then drop duplicate-named columns. -/
def merge_all_data (timeline bgl : DataFrame)
    (others : List (String × DataFrame)) : DataFrame :=
  let f0 := merge_left timeline bgl "timestamp" "date" "_x" "_y"
  dedup_columns (merge_others f0 others)

/-- `pd.date_range(start, stop, freq=min)` on second-valued instants:
every `start + 60*i` not exceeding `stop`, and empty when `stop < start`. -/
def date_range (start stop : Int) : List Int :=
  if stop < start then []
  else (List.range ((stop - start).toNat / 60 + 1)).map
    (fun i : Nat => start + 60 * (i : Int))

/-- Minimum of a list of instants, as `Series.min`. -/
def listMin (d : Int) (ds : List Int) : Int :=
  ds.foldl min d

/-- Maximum of a list of instants, as `Series.max`. -/
def listMax (d : Int) (ds : List Int) : Int :=
  ds.foldl max d

/-- Lines 210-235, `create_base_timeline`: bounds are the primary series'
min and max padded by one day (86400 s) on each side; the minute grid is
then passed through `_standardize_timestamp`, which on the (naive) grid
column amounts to minute-rounding each entry.  `none` models the
`ValueError` raised when no primary series is available. -/
def create_base_timeline (dates : List Int) : Option (List Int) :=
  match dates with
  | [] => none
  | d :: ds =>
    let start := listMin d ds - 86400
    let stop := listMax d ds + 86400
    some ((date_range start stop).map
      (fun t => canonical_naive { wall := t, offset := none }))

/-- The resolved timestamp-column position of `_standardize_timestamp`:
the explicit override when given, otherwise the priority-list resolution
(lines 17-25); `none` when the code would raise. -/
def resolvedIdx (df : DataFrame) (date_col : Option String) : Option Nat :=
  match (match date_col with
         | some c => some c
         | none => resolve_date_col df.cols) with
  | none => none
  | some c => List.findIdx? (fun d => d == c) df.cols

/-- Read the timestamp column out of the rows.  A missing cell parses to
NaT (`some none`) — `pd.to_datetime` does not raise on it.  A cell holding
non-timestamp data (a number or free string in this embedding) is
unparseable by the accepted date grammars and fails the whole parse
(`none`), as the source's `pd.to_datetime` call would. -/
def extractTimes (j : Nat) : List (List Value) → Option (List (Option ParsedTime))
  | [] => some []
  | r :: rs =>
    match cellAt r j, extractTimes j rs with
    | Value.time p, some ps => some (some p :: ps)
    | Value.missing, some ps => some (none :: ps)
    | _, _ => none

/-- Writing a standardized cell back into the frame: an actual canonical
instant, or NaT for a cell that was missing. -/
def timeCellValue : Option ParsedTime → Value
  | some p => Value.time p
  | none => Value.missing

/-- Lines 13-76, `_standardize_timestamp` on a whole frame: resolve the
timestamp column, parse it, standardize it, and write the canonical column
back in place, leaving every other cell untouched. -/
def _standardize_timestamp (df : DataFrame) (date_col : Option String) :
    Option DataFrame :=
  match resolvedIdx df date_col with
  | none => none
  | some j =>
    match extractTimes j df.rows with
    | none => none
    | some ts =>
      match standardize_result ts with
      | none => none
      | some (ys, _adjs) =>
        some { cols := df.cols,
               rows := List.zipWith (fun r c => r.set j (timeCellValue c)) df.rows ys }

/-- The cell of a frame at a row and column position (missing outside). -/
def getEntry (df : DataFrame) (i j : Nat) : Value :=
  cellAt (df.rows.getD i []) j


/-! ## Lemmas about minute rounding and the normalizer -/

theorem roundMin_emod (s : Int) : roundMin s % 60 = 0 := by
  unfold roundMin
  split
  · omega
  · split
    · omega
    · split <;> omega

theorem roundMin_of_emod_zero (s : Int) (h : s % 60 = 0) :
    roundMin s = s := by
  unfold roundMin
  rw [if_pos (by omega : s % 60 < 30)]
  omega

theorem canonical_naive_of_none (w : Int) :
    canonical_naive { wall := w, offset := none } = roundMin w := rfl

theorem canonical_naive_of_some (w o : Int) :
    canonical_naive { wall := w, offset := some o } = roundMin (w - o) := rfl

theorem filterMap_id_map_some {α : Type} (l : List α) :
    (l.map some).filterMap id = l := by
  induction l with
  | nil => rfl
  | cons a t ih => simp [ih]

/-- The line-52 comparison per cell: an actual value never differs from
its own reference (both are the same convert-then-round pipeline), while
a NaT cell always compares unequal. -/
theorem ne_pandas_cell (c : Option ParsedTime) :
    ne_pandas (orig_utc_cell c) (Option.map relocalize_utc (canonical_cell c))
      = c.isNone := by
  cases c with
  | none => rfl
  | some p =>
    show ne_pandas (some (utc_round_min (tz_to_utc p)))
      (some (relocalize_utc (canonical_naive p))) = false
    have hfix : utc_round_min (tz_to_utc p) = relocalize_utc (canonical_naive p) := rfl
    unfold ne_pandas
    simp [hfix]

theorem adjs_from_value (i : Nat) (p : ParsedTime)
    (cs : List (Option ParsedTime)) :
    standardize_adjs_from i (some p :: cs) = standardize_adjs_from (i + 1) cs := by
  simp only [standardize_adjs_from, ne_pandas_cell, Option.isNone_some,
    Bool.false_eq_true, if_false]

theorem adjs_from_missing (i : Nat) (cs : List (Option ParsedTime)) :
    standardize_adjs_from i (none :: cs) =
      { index := i, original := none, original_utc := none, final := none,
        difference_seconds := none } :: standardize_adjs_from (i + 1) cs := rfl

theorem adjs_from_values_nil (xs : List ParsedTime) :
    ∀ i, standardize_adjs_from i (xs.map some) = [] := by
  induction xs with
  | nil => intro i; rfl
  | cons p t ih =>
    intro i
    rw [List.map_cons, adjs_from_value]
    exact ih (i + 1)

/-- A column of actual values produces no displacement records. -/
theorem standardize_adjs_values (xs : List ParsedTime) :
    standardize_adjs (xs.map some) = [] :=
  adjs_from_values_nil xs 0

theorem adjs_from_nil_iff (cs : List (Option ParsedTime)) :
    ∀ i, (standardize_adjs_from i cs = [] ↔ ∀ c ∈ cs, c.isSome = true) := by
  induction cs with
  | nil =>
    intro i
    simp [standardize_adjs_from]
  | cons c t ih =>
    intro i
    cases c with
    | none =>
      rw [adjs_from_missing]
      constructor
      · intro h
        cases h
      · intro h
        exfalso
        have := h none (List.mem_cons_self _ _)
        simp at this
    | some p =>
      rw [adjs_from_value, ih (i + 1)]
      constructor
      · intro h c hc
        rcases List.mem_cons.mp hc with rfl | hc2
        · rfl
        · exact h c hc2
      · intro h c hc
        exact h c (List.mem_cons_of_mem _ hc)

/-- The displacement list is empty exactly when the column has no missing
(NaT) cells. -/
theorem standardize_adjs_nil_iff (cs : List (Option ParsedTime)) :
    standardize_adjs cs = [] ↔ ∀ c ∈ cs, c.isSome = true :=
  adjs_from_nil_iff cs 0

theorem uniform_vals_of_all_none (ps : List ParsedTime)
    (h : ∀ p ∈ ps, p.offset = none) : uniform_vals ps = true := by
  unfold uniform_vals
  have : ps.all (fun p => p.offset.isNone) = true := by
    simp only [List.all_eq_true]
    intro p hp
    simp [h p hp]
  simp [this]

theorem uniform_tz_values (xs : List ParsedTime) :
    uniform_tz (xs.map some) = uniform_vals xs := by
  unfold uniform_tz
  rw [filterMap_id_map_some]

theorem standardize_result_of_uniform (xs : List (Option ParsedTime))
    (h : uniform_tz xs = true) :
    standardize_result xs =
      some (xs.map (fun c =>
          c.map (fun p => { wall := canonical_naive p, offset := none })),
        standardize_adjs xs) := by
  have hx : to_datetime_mixed xs = some xs := by
    unfold to_datetime_mixed
    rw [if_pos h]
  unfold standardize_result
  rw [hx]

theorem standardize_result_values (xs : List ParsedTime)
    (h : uniform_tz (xs.map some) = true) :
    standardize_result (xs.map some) =
      some (xs.map (fun p =>
          some ({ wall := canonical_naive p, offset := none } : ParsedTime)),
        []) := by
  rw [standardize_result_of_uniform (xs.map some) h, standardize_adjs_values,
    List.map_map]
  rfl

/-! ## Claims about the Timestamp Normalizer -/

/-- Counterexample to claim C3: a series whose timestamp column holds one
actual value and one missing cell normalizes successfully (the missing
cell becomes NaT, `pd.to_datetime` does not raise), yet the
displacement-record list is not empty — the NaT row appends a record,
because NaT compares unequal to itself in the line-52 comparison. -/
theorem c3_counterexample :
    standardize_result [some { wall := 30, offset := none }, none] =
        some ([some { wall := 0, offset := none }, none],
          [{ index := 1, original := none, original_utc := none, final := none,
             difference_seconds := none }]) ∧
      ([{ index := 1, original := none, original_utc := none, final := none,
          difference_seconds := none }] : List Adjustment) ≠ [] :=
  ⟨by decide, by decide⟩

/-- Claim C3 as amended: on a successfully normalized column the
displacement list is empty exactly when the column has no missing
timestamp cells — for every row holding an actual value the reference of
lines 34-39 equals the final value of lines 42-47 and nothing is
recorded, so a column of actual values yields an empty list; every NaT
row, however, appends a record. -/
theorem c3_adjs_empty_iff_no_missing (cs ys : List (Option ParsedTime))
    (adjs : List Adjustment) (h : standardize_result cs = some (ys, adjs)) :
    (adjs = [] ↔ ∀ c ∈ cs, c.isSome = true) ∧
      ∀ xs : List ParsedTime, standardize_adjs (xs.map some) = [] := by
  have hu : uniform_tz cs = true := by
    by_contra hu
    unfold standardize_result to_datetime_mixed at h
    rw [if_neg hu] at h
    cases h
  have hadj : adjs = standardize_adjs cs := by
    rw [standardize_result_of_uniform cs hu] at h
    simp only [Option.some.injEq, Prod.mk.injEq] at h
    exact h.2.symm
  refine ⟨?_, standardize_adjs_values⟩
  rw [hadj]
  exact standardize_adjs_nil_iff cs

/-- Witness for the amended C3 at a concrete missing-free column. -/
theorem c3_adjs_empty_iff_no_missing_witness :
    standardize_result [some { wall := 30, offset := none }] =
        some ([some { wall := 0, offset := none }], []) ∧
      (([] : List Adjustment) = [] ↔
        ∀ c ∈ [(some { wall := 30, offset := none } : Option ParsedTime)],
          c.isSome = true) :=
  ⟨rfl, (c3_adjs_empty_iff_no_missing [some { wall := 30, offset := none }]
    [some { wall := 0, offset := none }] [] rfl).1⟩

/-- Claim C7: the final Canonical Timestamp is the UTC instant rounded to
the nearest minute; a naive value is taken as already UTC (no zone shift),
and a value carrying offset +05:00 is shifted back by five hours.  Stated
for whole uniformly-naive and uniformly-aware columns and for the
per-value canonical function. -/
theorem c7_canonical_utc_round (xs : List Int) (o w : Int) :
    standardize_result
        (xs.map (fun v => some ({ wall := v, offset := none } : ParsedTime))) =
      some (xs.map (fun v =>
          some ({ wall := roundMin v, offset := none } : ParsedTime)), []) ∧
      standardize_result
          (xs.map (fun v => some ({ wall := v, offset := some o } : ParsedTime))) =
        some (xs.map (fun v =>
            some ({ wall := roundMin (v - o), offset := none } : ParsedTime)), []) ∧
      canonical_naive { wall := w, offset := none } = roundMin w ∧
      canonical_naive { wall := w, offset := some (5 * 3600) } =
        roundMin (w - 5 * 3600) := by
  refine ⟨?_, ?_, rfl, rfl⟩
  · have h1 : xs.map (fun v => some ({ wall := v, offset := none } : ParsedTime)) =
        (xs.map (fun v => ({ wall := v, offset := none } : ParsedTime))).map some := by
      rw [List.map_map]
      rfl
    rw [h1, standardize_result_values]
    · rw [List.map_map]
      rfl
    · rw [uniform_tz_values]
      apply uniform_vals_of_all_none
      intro p hp
      simp only [List.mem_map] at hp
      obtain ⟨v, _, rfl⟩ := hp
      rfl
  · have h2 : xs.map (fun v => some ({ wall := v, offset := some o } : ParsedTime)) =
        (xs.map (fun v => ({ wall := v, offset := some o } : ParsedTime))).map some := by
      rw [List.map_map]
      rfl
    rw [h2, standardize_result_values]
    · rw [List.map_map]
      rfl
    · rw [uniform_tz_values]
      unfold uniform_vals
      cases xs with
      | nil => rfl
      | cons v vs =>
        simp [List.all_eq_true]

/-- Claim C8 (confirmed): every normalized value is minute-aligned and
carries no timezone tag, and re-normalizing an already-normalized column
returns it unchanged, in the same row order, with no displacement
records. -/
theorem c8_canonical_idempotent (xs : List ParsedTime)
    (ys : List (Option ParsedTime)) (adjs : List Adjustment)
    (h : standardize_result (xs.map some) = some (ys, adjs)) :
    (∀ c ∈ ys, ∀ p, c = some p → p.offset = none ∧ p.wall % 60 = 0) ∧
      standardize_result ys = some (ys, []) := by
  have hu : uniform_tz (xs.map some) = true := by
    by_contra hu
    unfold standardize_result to_datetime_mixed at h
    rw [if_neg hu] at h
    cases h
  have hys : ys = xs.map (fun p =>
      some ({ wall := canonical_naive p, offset := none } : ParsedTime)) := by
    rw [standardize_result_values xs hu] at h
    simp only [Option.some.injEq, Prod.mk.injEq] at h
    exact h.1.symm
  have hmem : ∀ c ∈ ys, ∀ p, c = some p → p.offset = none ∧ p.wall % 60 = 0 := by
    intro c hc p hcp
    rw [hys] at hc
    simp only [List.mem_map] at hc
    obtain ⟨q, _, rfl⟩ := hc
    have hpq : ({ wall := canonical_naive q, offset := none } : ParsedTime) = p := by
      injection hcp
    rw [← hpq]
    exact ⟨rfl, roundMin_emod _⟩
  refine ⟨hmem, ?_⟩
  have hys2 : ys = (xs.map (fun p =>
      ({ wall := canonical_naive p, offset := none } : ParsedTime))).map some := by
    rw [hys, List.map_map]
    rfl
  have hvals : ∀ q ∈ xs.map (fun p =>
      ({ wall := canonical_naive p, offset := none } : ParsedTime)),
      q.offset = none := by
    intro q hq
    simp only [List.mem_map] at hq
    obtain ⟨p2, _, rfl⟩ := hq
    rfl
  have hu2 : uniform_tz ((xs.map (fun p =>
      ({ wall := canonical_naive p, offset := none } : ParsedTime))).map some) = true := by
    rw [uniform_tz_values]
    exact uniform_vals_of_all_none _ hvals
  rw [hys2, standardize_result_values _ hu2]
  have hfix : (xs.map (fun p =>
        ({ wall := canonical_naive p, offset := none } : ParsedTime))).map
      (fun q => some ({ wall := canonical_naive q, offset := none } : ParsedTime)) =
      (xs.map (fun p =>
        ({ wall := canonical_naive p, offset := none } : ParsedTime))).map some := by
    apply List.map_congr_left
    intro q hq
    simp only [List.mem_map] at hq
    obtain ⟨p2, _, rfl⟩ := hq
    have hal : canonical_naive p2 % 60 = 0 := roundMin_emod _
    have h1 : canonical_naive
        ({ wall := canonical_naive p2, offset := none } : ParsedTime) =
        canonical_naive p2 := by
      rw [canonical_naive_of_none]
      exact roundMin_of_emod_zero _ hal
    rw [h1]
  rw [hfix]

/-- Witness for C8: a concrete column whose single value sits at an odd
minute plus thirty seconds, so rounding moves it up to the even minute. -/
theorem c8_canonical_idempotent_witness :
    standardize_result [some { wall := 90, offset := none }] =
        some ([some { wall := 120, offset := none }], []) ∧
      standardize_result [some { wall := 120, offset := none }] =
        some ([some { wall := 120, offset := none }], []) :=
  ⟨rfl, (c8_canonical_idempotent [{ wall := 90, offset := none }]
    [some { wall := 120, offset := none }] [] rfl).2⟩

/-- Counterexample to claim C1: for the instant 2023-01-01T12:00:30Z
(epoch second 1672574430, whose minute index 27876240 is even), the
Canonical Timestamp is 12:00:00 (epoch 1672574400), the earlier minute,
not the later minute 12:01:00 (epoch 1672574460), and the
displacement-record list is empty, so no round_up record is produced. -/
theorem c1_counterexample :
    standardize_result [some { wall := 1672574430, offset := some 0 }] =
        some ([some { wall := 1672574400, offset := none }], []) ∧
      (1672574400 : Int) ≠ 1672574460 :=
  ⟨by decide, by decide⟩

/-- Claim C1 as amended: minute rounding resolves a seconds-component-30
tie half to even — the value rounds down to the same minute when its
minute index is even and up to the next minute when it is odd — and no
Displacement Record is produced for such an input, nor for any other row
holding an actual timestamp value (only a missing NaT cell produces a
record), since for actual values the reference of lines 34-39 equals the
final value of lines 42-47. -/
theorem c1_tie_rounds_half_even (w : Int) (h : w % 60 = 30) :
    (w / 60 % 2 = 0 → canonical_naive { wall := w, offset := none } = w - 30) ∧
      (w / 60 % 2 ≠ 0 → canonical_naive { wall := w, offset := none } = w + 30) ∧
      standardize_result [some { wall := w, offset := none }] =
        some ([some ({ wall := canonical_naive { wall := w, offset := none }, offset := none } : ParsedTime)], []) := by
  have hcan : canonical_naive { wall := w, offset := none } = roundMin w := rfl
  refine ⟨?_, ?_, ?_⟩
  · intro hq
    rw [hcan]
    unfold roundMin
    rw [if_neg (by omega), if_neg (by omega), if_pos hq]
    omega
  · intro hq
    rw [hcan]
    unfold roundMin
    rw [if_neg (by omega), if_neg (by omega), if_neg hq]
    omega
  · have hu : uniform_tz [some ({ wall := w, offset := none } : ParsedTime)] = true := by
      unfold uniform_tz
      rfl
    rw [standardize_result_of_uniform _ hu]
    have ha : standardize_adjs [some ({ wall := w, offset := none } : ParsedTime)] = [] := by
      unfold standardize_adjs
      rw [adjs_from_value]
      rfl
    rw [ha]
    rfl

/-- Witness for the amended C1 at the concrete tie 2023-01-01T12:00:30
(even minute index, so the tie rounds down). -/
theorem c1_tie_rounds_half_even_witness :
    (1672574430 : Int) % 60 = 30 ∧
      canonical_naive { wall := 1672574430, offset := none } =
        1672574430 - 30 :=
  ⟨by decide, (c1_tie_rounds_half_even 1672574430 (by decide)).1 (by decide)⟩

/-- Counterexample to claim C4: a column mixing a row without an offset
and a row with an explicit +05:00 offset does not normalize — the parsed
column has no uniform timezone-awareness, so the code's `.dt` accessor
work fails. -/
theorem c4_counterexample :
    standardize_result
        [some { wall := 0, offset := none },
         some { wall := 0, offset := some 18000 }] =
      none := rfl

/-- Claim C4 as amended: a column whose rows are uniformly naive, or
uniformly carry one identical offset, normalizes successfully (mixed
textual formats are immaterial, since parsing is element-wise), yielding a
Canonical Timestamp for every row and no displacement records; but a
column mixing offset-carrying and offset-free rows fails normalization. -/
theorem c4_uniform_tz_normalizes (xs : List ParsedTime)
    (h : uniform_tz (xs.map some) = true) :
    (standardize_result (xs.map some)).isSome = true ∧
      ∀ ys adjs, standardize_result (xs.map some) = some (ys, adjs) →
        ys.length = xs.length ∧ adjs = [] := by
  rw [standardize_result_values xs h]
  refine ⟨rfl, ?_⟩
  intro ys adjs hy
  simp only [Option.some.injEq, Prod.mk.injEq] at hy
  obtain ⟨h1, h2⟩ := hy
  constructor
  · rw [← h1]
    exact List.length_map _ _
  · exact h2.symm

/-- Witness for the amended C4 on a concrete uniformly-naive column. -/
theorem c4_uniform_tz_normalizes_witness :
    uniform_tz ([{ wall := 5, offset := none },
        { wall := 61, offset := none }].map some) = true ∧
      (standardize_result ([{ wall := 5, offset := none },
        { wall := 61, offset := none }].map some)).isSome = true :=
  ⟨rfl, (c4_uniform_tz_normalizes
    [{ wall := 5, offset := none }, { wall := 61, offset := none }] rfl).1⟩

/-! ## Claims about column resolution and the timeline -/

/-- Counterexample to claim C2: on a series with columns
recorded_time and date, the Normalizer's priority-list resolution picks
date (it scans the candidate list in order), while the Merger picks
recorded_time (it scans the frame's columns in order for a time-like
name), so the join key differs from the normalizer's column. -/
theorem c2_counterexample :
    resolve_date_col ["recorded_time", "date"] = some "date" ∧
      (merger_time_cols ["recorded_time", "date"]).head? = some "recorded_time" ∧
      ("date" : String) ≠ "recorded_time" :=
  ⟨by decide, by decide, by decide⟩

/-- Claim C2 as amended: the Merger resolves the join key as the first
column, in the series' own column order, whose lowercase name contains
time or date as a substring — not by the Normalizer's priority list.  The
two resolutions agree whenever the Normalizer's resolved column is the
only time-like column of the frame (the typical normalized series), but
differ in general. -/
theorem c2_merger_key_agreement (cols : List String) (c : String)
    (h1 : resolve_date_col cols = some c)
    (h2 : isTimeLike c = true)
    (h3 : ∀ d ∈ cols, isTimeLike d = true → d = c) :
    (merger_time_cols cols).head? = some c := by
  have hfind := List.find?_some h1
  have hc : c ∈ cols := by
    simpa using hfind
  have hmem : c ∈ merger_time_cols cols := List.mem_filter.mpr ⟨hc, h2⟩
  have hall : ∀ d ∈ merger_time_cols cols, d = c := by
    intro d hd
    have hd2 := List.mem_filter.mp hd
    exact h3 d hd2.1 hd2.2
  cases hml : merger_time_cols cols with
  | nil =>
    rw [hml] at hmem
    cases hmem
  | cons a t =>
    have : a = c := hall a (by rw [hml]; exact List.mem_cons_self a t)
    rw [this]
    rfl

/-- Witness for the amended C2 on a typical normalized secondary series
(columns timestamp and value): both resolutions pick timestamp. -/
theorem c2_merger_key_agreement_witness :
    resolve_date_col ["timestamp", "value"] = some "timestamp" ∧
      isTimeLike "timestamp" = true ∧
      (merger_time_cols ["timestamp", "value"]).head? = some "timestamp" :=
  ⟨by decide, by decide, c2_merger_key_agreement ["timestamp", "value"] "timestamp"
    (by decide) (by decide) (by decide)⟩

theorem listMin_le_init (ds : List Int) : ∀ d, listMin d ds ≤ d := by
  induction ds with
  | nil => intro d; exact le_refl d
  | cons a t ih =>
    intro d
    calc listMin d (a :: t) = listMin (min d a) t := rfl
      _ ≤ min d a := ih (min d a)
      _ ≤ d := min_le_left d a

theorem init_le_listMax (ds : List Int) : ∀ d, d ≤ listMax d ds := by
  induction ds with
  | nil => intro d; exact le_refl d
  | cons a t ih =>
    intro d
    calc d ≤ max d a := le_max_left d a
      _ ≤ listMax (max d a) t := ih (max d a)
      _ = listMax d (a :: t) := rfl

theorem listMin_mem (ds : List Int) :
    ∀ d, listMin d ds = d ∨ listMin d ds ∈ ds := by
  induction ds with
  | nil => intro d; exact Or.inl rfl
  | cons a t ih =>
    intro d
    have h := ih (min d a)
    rcases h with h | h
    · rcases min_choice d a with hm | hm
      · exact Or.inl (by rw [show listMin d (a :: t) = listMin (min d a) t from rfl, h, hm])
      · refine Or.inr ?_
        rw [show listMin d (a :: t) = listMin (min d a) t from rfl, h, hm]
        exact List.mem_cons_self a t
    · exact Or.inr (List.mem_cons_of_mem a h)

theorem listMax_mem (ds : List Int) :
    ∀ d, listMax d ds = d ∨ listMax d ds ∈ ds := by
  induction ds with
  | nil => intro d; exact Or.inl rfl
  | cons a t ih =>
    intro d
    have h := ih (max d a)
    rcases h with h | h
    · rcases max_choice d a with hm | hm
      · exact Or.inl (by rw [show listMax d (a :: t) = listMax (max d a) t from rfl, h, hm])
      · refine Or.inr ?_
        rw [show listMax d (a :: t) = listMax (max d a) t from rfl, h, hm]
        exact List.mem_cons_self a t
    · exact Or.inr (List.mem_cons_of_mem a h)

/-- Claim C6: for a non-empty primary series, the Timeline Grid is the
arithmetic progression at one-minute (60 s) spacing from the series'
minimum Canonical Timestamp minus one day to its maximum plus one day,
both bounds inclusive, and its row count is the span divided by 60 plus
one. -/
theorem c6_timeline_grid (d : Int) (ds : List Int)
    (hal : ∀ x ∈ d :: ds, x % 60 = 0) :
    create_base_timeline (d :: ds) =
        some ((List.range
            (((listMax d ds + 86400) - (listMin d ds - 86400)).toNat / 60 + 1)).map
          (fun i : Nat => (listMin d ds - 86400) + 60 * (i : Int))) ∧
      ∀ l, create_base_timeline (d :: ds) = some l →
        l.length =
          ((listMax d ds + 86400) - (listMin d ds - 86400)).toNat / 60 + 1 := by
  have hlo : listMin d ds % 60 = 0 := by
    rcases listMin_mem ds d with h | h
    · rw [h]; exact hal d (List.mem_cons_self d ds)
    · exact hal _ (List.mem_cons_of_mem d h)
  have hle : listMin d ds - 86400 ≤ listMax d ds + 86400 := by
    have h1 := listMin_le_init ds d
    have h2 := init_le_listMax ds d
    omega
  have hstep : create_base_timeline (d :: ds) =
      some ((date_range (listMin d ds - 86400) (listMax d ds + 86400)).map
        (fun t => canonical_naive { wall := t, offset := none })) := rfl
  have hmain : create_base_timeline (d :: ds) =
      some ((List.range
          (((listMax d ds + 86400) - (listMin d ds - 86400)).toNat / 60 + 1)).map
        (fun i : Nat => (listMin d ds - 86400) + 60 * (i : Int))) := by
    rw [hstep]
    unfold date_range
    rw [if_neg (by omega : ¬ listMax d ds + 86400 < listMin d ds - 86400)]
    rw [List.map_map]
    congr 1
    apply List.map_congr_left
    intro i _
    show canonical_naive
        { wall := listMin d ds - 86400 + 60 * (i : Int), offset := none } =
      listMin d ds - 86400 + 60 * (i : Int)
    rw [canonical_naive_of_none]
    exact roundMin_of_emod_zero _ (by omega)
  refine ⟨hmain, ?_⟩
  intro l hl
  rw [hmain] at hl
  simp only [Option.some.injEq] at hl
  rw [← hl, List.length_map, List.length_range]

/-- Witness for C6: a primary series spanning 2023-01-01 00:00 to
2023-01-02 00:00 (epoch seconds) yields the grid from 2022-12-31 00:00 to
2023-01-03 00:00 with 4321 rows. -/
theorem c6_timeline_grid_witness :
    (∀ x ∈ [(1672531200 : Int), 1672617600], x % 60 = 0) ∧
      create_base_timeline [1672531200, 1672617600] =
        some ((List.range 4321).map (fun i : Nat => 1672444800 + 60 * (i : Int))) := by
  refine ⟨by decide, ?_⟩
  have h := (c6_timeline_grid 1672531200 [1672617600] (by decide)).1
  rw [h]
  have hN : (((listMax 1672531200 [1672617600] + 86400) -
      (listMin 1672531200 [1672617600] - 86400)).toNat / 60 + 1) = 4321 := by decide
  have hlo : listMin 1672531200 [(1672617600 : Int)] - 86400 = 1672444800 := by decide
  rw [hN]
  simp only [hlo]

/-! ## Lemmas about the left join -/

theorem filter_eq_nil_of_find?_none {α β : Type} [DecidableEq β]
    (key : α → β) (k : β) (rs : List α)
    (hf : rs.find? (fun x => key x == k) = none) :
    rs.filter (fun x => key x == k) = [] := by
  apply List.filter_eq_nil_iff.mpr
  intro a ha
  have := List.find?_eq_none.mp hf a ha
  simpa using this

theorem filter_eq_singleton_of_find?_some {α β : Type} [DecidableEq β]
    (key : α → β) (k : β) (rs : List α) (r : α)
    (hnd : (rs.map key).Nodup)
    (hf : rs.find? (fun x => key x == k) = some r) :
    rs.filter (fun x => key x == k) = [r] := by
  induction rs with
  | nil => cases hf
  | cons a t ih =>
    by_cases ha : (key a == k) = true
    · rw [List.find?_cons_of_pos t ha] at hf
      have har : a = r := by injection hf
      have hnone : t.filter (fun x => key x == k) = [] := by
        apply List.filter_eq_nil_iff.mpr
        intro x hx hpx
        have hxk : key x = k := by simpa using hpx
        have hak : key a = k := by simpa using ha
        have hmem : key a ∈ t.map key := by
          rw [hak, ← hxk]
          exact List.mem_map_of_mem key hx
        exact (List.nodup_cons.mp hnd).1 hmem
      subst har
      simp only [List.filter_cons, ha, if_true, hnone]
    · rw [List.find?_cons_of_neg t ha] at hf
      have ha2 : (key a == k) = false := by simpa using ha
      simp only [List.filter_cons, ha2, Bool.false_eq_true, if_false]
      exact ih (List.nodup_cons.mp hnd).2 hf

theorem flatMap_eq_map_of_pure {α β : Type} (l : List α) (f : α → β)
    (g : α → List β) (h : ∀ a, g a = [f a]) : l.flatMap g = l.map f := by
  induction l with
  | nil => rfl
  | cons a t ih => simp [List.flatMap_cons, h, ih]

theorem flatMap_length_of_one {α β : Type} (l : List α) (g : α → List β)
    (h : ∀ a, (g a).length = 1) : (l.flatMap g).length = l.length := by
  induction l with
  | nil => rfl
  | cons a t ih =>
    simp [List.flatMap_cons, h, ih]
    omega

/-- The key cells of the right frame at the join column. -/
def rightKeys (R : DataFrame) (rkey : String) : List Value :=
  R.rows.map (fun rr => cellAt rr (colIdx R.cols rkey))

/-- Characterization of the left join under pairwise-distinct right keys
and distinct key names: exactly one output row per left row, in left
order; a left row takes the unique matching right row's cells when one
exists and missing markers otherwise. -/
theorem merge_left_rows (L R : DataFrame) (lkey rkey sl sr : String)
    (hk : (rkey == lkey) = false)
    (hnd : (rightKeys R rkey).Nodup) :
    (merge_left L R lkey rkey sl sr).rows =
      L.rows.map (fun lr =>
        match R.rows.find? (fun rr =>
            cellAt rr (colIdx R.cols rkey) == cellAt lr (colIdx L.cols lkey)) with
        | some rr => lr ++ rr
        | none => lr ++ List.replicate R.cols.length Value.missing) := by
  unfold merge_left
  simp only [hk, if_false, Bool.false_eq_true]
  apply flatMap_eq_map_of_pure
  intro lr
  rcases hf : R.rows.find? (fun rr =>
      cellAt rr (colIdx R.cols rkey) == cellAt lr (colIdx L.cols lkey)) with _ | rr
  · have hfil := filter_eq_nil_of_find?_none
      (fun rr => cellAt rr (colIdx R.cols rkey))
      (cellAt lr (colIdx L.cols lkey)) R.rows hf
    simp only [hfil, List.isEmpty_nil, if_true]
  · have hfil := filter_eq_singleton_of_find?_some
      (fun rr => cellAt rr (colIdx R.cols rkey))
      (cellAt lr (colIdx L.cols lkey)) R.rows rr hnd hf
    simp only [hfil, List.isEmpty_cons, List.map_cons, List.map_nil]
    rfl

/-- The left join never changes the row count when the right keys are
pairwise distinct (whether or not the key names coincide). -/
theorem merge_left_length (L R : DataFrame) (lkey rkey sl sr : String)
    (hnd : (rightKeys R rkey).Nodup) :
    (merge_left L R lkey rkey sl sr).rows.length = L.rows.length := by
  unfold merge_left
  apply flatMap_length_of_one
  intro lr
  rcases hf : R.rows.find? (fun rr =>
      cellAt rr (colIdx R.cols rkey) == cellAt lr (colIdx L.cols lkey)) with _ | rr
  · have hfil := filter_eq_nil_of_find?_none
      (fun rr => cellAt rr (colIdx R.cols rkey))
      (cellAt lr (colIdx L.cols lkey)) R.rows hf
    simp [hfil]
  · have hfil := filter_eq_singleton_of_find?_some
      (fun rr => cellAt rr (colIdx R.cols rkey))
      (cellAt lr (colIdx L.cols lkey)) R.rows rr hnd hf
    simp [hfil]

/-- A series' join-key cells (at the column the Merger would pick) are
pairwise distinct; vacuously true when the Merger finds no time-like
column, since such a series is skipped. -/
def seriesKeyUnique (df : DataFrame) : Bool :=
  match merger_time_cols df.cols with
  | [] => true
  | c :: _ => decide ((rightKeys df c).Nodup)

theorem merge_others_length (others : List (String × DataFrame)) :
    ∀ acc : DataFrame, (∀ nd ∈ others, seriesKeyUnique nd.2 = true) →
      (merge_others acc others).rows.length = acc.rows.length := by
  induction others with
  | nil => intro acc _; rfl
  | cons nd rest ih =>
    intro acc hu
    rcases nd with ⟨name, df⟩
    have hdf : seriesKeyUnique df = true :=
      hu ⟨name, df⟩ (List.mem_cons_self _ _)
    have hrest : ∀ x ∈ rest, seriesKeyUnique x.2 = true :=
      fun x hx => hu x (List.mem_cons_of_mem _ hx)
    show (merge_others _ (⟨name, df⟩ :: rest)).rows.length = acc.rows.length
    unfold merge_others
    by_cases he : df.rows.isEmpty
    · rw [if_pos he]
      exact ih acc hrest
    · rw [if_neg he]
      rcases hml : merger_time_cols df.cols with _ | ⟨c, tcs⟩
    
      · exact ih acc hrest
      · rw [ih (merge_left acc df "timestamp" c "" ("_" ++ name)) hrest]
        apply merge_left_length
        unfold seriesKeyUnique at hdf
        rw [hml] at hdf
        exact of_decide_eq_true hdf

theorem dedup_columns_length (df : DataFrame) :
    (dedup_columns df).rows.length = df.rows.length := by
  unfold dedup_columns
  exact List.length_map _ _

/-! ## Claims about the merge -/

/-- Counterexample to claim C5: a primary series holding two rows in the
same canonical minute (epoch 0) duplicates that grid row — the merged
dataset has three rows over a two-entry grid, not one row per entry. -/
theorem c5_counterexample :
    (merge_all_data
        { cols := ["timestamp"],
          rows := [[Value.time { wall := 0, offset := none }],
                   [Value.time { wall := 60, offset := none }]] }
        { cols := ["date", "bgl"],
          rows := [[Value.time { wall := 0, offset := none }, Value.num 5],
                   [Value.time { wall := 0, offset := none }, Value.num 6]] }
        []).rows.length = 3 ∧ (3 : Nat) ≠ 2 :=
  ⟨by decide, by decide⟩

/-- Claim C5 as amended: provided the primary series and every joined
series have pairwise-distinct key cells in their join columns, the merged
dataset has exactly one row per Timeline Grid entry, in grid order; and
each single left join then populates a grid row with exactly the unique
matching series row — every other grid row keeps missing markers for that
series' columns.  A series with two rows in one canonical minute instead
duplicates the matching grid row. -/
theorem c5_left_join_exact (tl bgl : DataFrame)
    (others : List (String × DataFrame))
    (hbgl : (rightKeys bgl "date").Nodup)
    (hoth : ∀ nd ∈ others, seriesKeyUnique nd.2 = true) :
    (merge_all_data tl bgl others).rows.length = tl.rows.length ∧
      ∀ (L R : DataFrame) (lkey rkey sl sr : String),
        (rkey == lkey) = false → (rightKeys R rkey).Nodup →
        (merge_left L R lkey rkey sl sr).rows =
          L.rows.map (fun lr =>
            match R.rows.find? (fun rr =>
                cellAt rr (colIdx R.cols rkey) == cellAt lr (colIdx L.cols lkey)) with
            | some rr => lr ++ rr
            | none => lr ++ List.replicate R.cols.length Value.missing) := by
  constructor
  · unfold merge_all_data
    rw [dedup_columns_length]
    rw [merge_others_length others _ hoth]
    exact merge_left_length tl bgl "timestamp" "date" "_x" "_y" hbgl
  · intro L R lkey rkey sl sr hk hnd
    exact merge_left_rows L R lkey rkey sl sr hk hnd

/-- Witness for the amended C5: a two-entry grid, a primary series with
distinct canonical timestamps, and one secondary series, merged into
exactly one row per grid entry. -/
theorem c5_left_join_exact_witness :
    (rightKeys
        { cols := ["date", "bgl"],
          rows := [[Value.time { wall := 60, offset := none }, Value.num 5]] }
        "date").Nodup ∧
      (∀ nd ∈ [("spo2",
          ({ cols := ["timestamp", "value"],
             rows := [[Value.time { wall := 0, offset := none }, Value.num 97]] } : DataFrame))],
        seriesKeyUnique nd.2 = true) ∧
      (merge_all_data
          { cols := ["timestamp"],
            rows := [[Value.time { wall := 0, offset := none }],
                     [Value.time { wall := 60, offset := none }]] }
          { cols := ["date", "bgl"],
            rows := [[Value.time { wall := 60, offset := none }, Value.num 5]] }
          [("spo2",
            { cols := ["timestamp", "value"],
              rows := [[Value.time { wall := 0, offset := none }, Value.num 97]] })]).rows.length
        = 2 := by
  refine ⟨by decide, by decide, ?_⟩
  have h := (c5_left_join_exact
    { cols := ["timestamp"],
      rows := [[Value.time { wall := 0, offset := none }],
               [Value.time { wall := 60, offset := none }]] }
    { cols := ["date", "bgl"],
      rows := [[Value.time { wall := 60, offset := none }, Value.num 5]] }
    [("spo2",
      { cols := ["timestamp", "value"],
        rows := [[Value.time { wall := 0, offset := none }, Value.num 97]] })]
    (by decide) (by decide)).1
  rw [h]
  rfl

/-! ## Lemmas about column deduplication -/

theorem keptCols_lookup (cols : List String) :
    ∀ (j : Nat) (seen : List String) (n : String) (r : List Value),
      seen.contains n = false → n ∈ cols →
      cellAt ((keptCols cols j seen).map (fun p => cellAt r p.1))
          (colIdx ((keptCols cols j seen).map (fun p => p.2)) n)
        = cellAt r (j + colIdx cols n) := by
  induction cols with
  | nil =>
    intro j seen n r _ hn
    cases hn
  | cons c t ih =>
    intro j seen n r hns hn
    unfold keptCols
    by_cases hsc : seen.contains c = true
    · rw [if_pos hsc]
      have hcn : (c == n) = false := by
        by_contra hb
        have hceq : c = n := by
          have : (c == n) = true := by
            cases hcb : (c == n) <;> simp_all
          simpa using this
        rw [hceq] at hsc
        rw [hsc] at hns
        cases hns
      have hnt : n ∈ t := by
        rcases List.mem_cons.mp hn with h | h
        · rw [h] at hcn
          simp at hcn
        · exact h
      have hidx : colIdx (c :: t) n = colIdx t n + 1 := by
        unfold colIdx
        rw [List.findIdx_cons _ _ _, hcn]
        rfl
      rw [hidx, show j + (colIdx t n + 1) = (j + 1) + colIdx t n from by omega]
      exact ih (j + 1) seen n r hns hnt
    · rw [if_neg hsc]
      by_cases hcn : (c == n) = true
      · have hceq : c = n := by simpa using hcn
        subst hceq
        have hidx : colIdx (c :: t) c = 0 := by
          unfold colIdx
          rw [List.findIdx_cons _ _ _]
          simp
        rw [hidx]
        simp only [List.map_cons]
        have hidx2 : colIdx (c :: (keptCols t (j + 1) (c :: seen)).map (fun p => p.2)) c = 0 := by
          unfold colIdx
          rw [List.findIdx_cons _ _ _]
          simp
        rw [hidx2]
        rfl
      · have hcnf : (c == n) = false := by
          cases hcb : (c == n) <;> simp_all
        have hnt : n ∈ t := by
          rcases List.mem_cons.mp hn with h | h
          · rw [h] at hcnf
            simp at hcnf
          · exact h
        have hnotmem : ¬ n ∈ (c :: seen) := by
          intro hmem
          rcases List.mem_cons.mp hmem with h | h
          · rw [h] at hcnf
            simp at hcnf
          · have : seen.contains n = true := by simpa using h
            rw [this] at hns
            cases hns
        have hns2 : (c :: seen).contains n = false := by
          simpa using hnotmem
        have hidx : colIdx (c :: t) n = colIdx t n + 1 := by
          unfold colIdx
          rw [List.findIdx_cons _ _ _, hcnf]
          rfl
        simp only [List.map_cons]
        have hidx2 : colIdx (c :: (keptCols t (j + 1) (c :: seen)).map (fun p => p.2)) n
            = colIdx ((keptCols t (j + 1) (c :: seen)).map (fun p => p.2)) n + 1 := by
          unfold colIdx
          rw [List.findIdx_cons _ _ _, hcnf]
          rfl
        rw [hidx, hidx2]
        show cellAt ((keptCols t (j + 1) (c :: seen)).map (fun p => cellAt r p.1))
            (colIdx ((keptCols t (j + 1) (c :: seen)).map (fun p => p.2)) n)
          = cellAt r (j + (colIdx t n + 1))
        rw [show j + (colIdx t n + 1) = (j + 1) + colIdx t n from by omega]
        exact ih (j + 1) (c :: seen) n r hns2 hnt

/-- Looking a column name up after deduplication reads exactly the cells
of the name's first occurrence in the original frame. -/
theorem dedup_columns_lookup (F : DataFrame) (n : String) (hn : n ∈ F.cols) :
    (dedup_columns F).rows.map
        (fun r => cellAt r (colIdx (dedup_columns F).cols n)) =
      F.rows.map (fun r => cellAt r (colIdx F.cols n)) := by
  unfold dedup_columns
  simp only [List.map_map]
  apply List.map_congr_left
  intro r _
  show cellAt ((keptCols F.cols 0 []).map (fun p => cellAt r p.1))
      (colIdx ((keptCols F.cols 0 []).map (fun p => p.2)) n)
    = cellAt r (colIdx F.cols n)
  have h := keptCols_lookup F.cols 0 [] n r rfl hn
  rw [h, Nat.zero_add]

/-- Claim C9: when a joined series brings a column whose name collides
with an existing non-key column of the accumulated frame, the incoming
column is suffixed with the series' logical name while the existing one
keeps its name, both present with their own cells (nothing overwritten);
and the final duplicate-name removal keeps, for every column name, exactly
the cells of its first occurrence. -/
theorem c9_collision_suffix (L R : DataFrame) (lkey rkey name c : String)
    (hk : (rkey == lkey) = false)
    (hcL : L.cols.contains c = true)
    (hcR : R.cols.contains c = true)
    (hnd : (rightKeys R rkey).Nodup) :
    (merge_left L R lkey rkey "" ("_" ++ name)).cols =
        L.cols ++ R.cols.map
          (fun d => if L.cols.contains d then d ++ ("_" ++ name) else d) ∧
      c ∈ (merge_left L R lkey rkey "" ("_" ++ name)).cols ∧
      (c ++ ("_" ++ name)) ∈ (merge_left L R lkey rkey "" ("_" ++ name)).cols ∧
      (merge_left L R lkey rkey "" ("_" ++ name)).rows =
        L.rows.map (fun lr =>
          match R.rows.find? (fun rr =>
              cellAt rr (colIdx R.cols rkey) == cellAt lr (colIdx L.cols lkey)) with
          | some rr => lr ++ rr
          | none => lr ++ List.replicate R.cols.length Value.missing) ∧
      ∀ (F : DataFrame) (n : String), n ∈ F.cols →
        (dedup_columns F).rows.map
            (fun r => cellAt r (colIdx (dedup_columns F).cols n)) =
          F.rows.map (fun r => cellAt r (colIdx F.cols n)) := by
  have hcols : (merge_left L R lkey rkey "" ("_" ++ name)).cols =
      L.cols ++ R.cols.map
        (fun d => if L.cols.contains d then d ++ ("_" ++ name) else d) := by
    unfold merge_left
    simp only [hk, Bool.false_eq_true, if_false]
    congr 1
    have : ∀ d ∈ L.cols,
        (if R.cols.contains d then d ++ "" else d) = d := by
      intro d _
      split
      · exact String.append_empty d
      · rfl
    calc L.cols.map (fun d => if R.cols.contains d then d ++ "" else d)
        = L.cols.map id := List.map_congr_left this
      _ = L.cols := List.map_id L.cols
  refine ⟨hcols, ?_, ?_, merge_left_rows L R lkey rkey _ _ hk hnd,
    fun F n hn => dedup_columns_lookup F n hn⟩
  · rw [hcols]
    apply List.mem_append_left
    simpa using hcL
  · rw [hcols]
    apply List.mem_append_right
    have hmem : c ∈ R.cols := by simpa using hcR
    have himg := List.mem_map_of_mem
      (fun d => if L.cols.contains d then d ++ ("_" ++ name) else d) hmem
    have himg2 : (if L.cols.contains c = true then c ++ ("_" ++ name) else c) ∈
        R.cols.map (fun d => if L.cols.contains d then d ++ ("_" ++ name) else d) :=
      himg
    rw [if_pos hcL] at himg2
    exact himg2

/-- Witness for C9: the accumulated frame and an incoming series both
carry a column named score; after the join the frame has columns
timestamp, score, date, score_s2, with both score columns holding their
own values. -/
theorem c9_collision_suffix_witness :
    (rightKeys
        { cols := ["date", "score"],
          rows := [[Value.time { wall := 0, offset := none }, Value.num 2]] }
        "date").Nodup ∧
      (merge_left
          { cols := ["timestamp", "score"],
            rows := [[Value.time { wall := 0, offset := none }, Value.num 1]] }
          { cols := ["date", "score"],
            rows := [[Value.time { wall := 0, offset := none }, Value.num 2]] }
          "timestamp" "date" "" ("_" ++ "s2")).cols =
        ["timestamp", "score", "date", "score_s2"] := by
  refine ⟨by decide, ?_⟩
  have h := (c9_collision_suffix
    { cols := ["timestamp", "score"],
      rows := [[Value.time { wall := 0, offset := none }, Value.num 1]] }
    { cols := ["date", "score"],
      rows := [[Value.time { wall := 0, offset := none }, Value.num 2]] }
    "timestamp" "date" "s2" "score"
    (by decide) (by decide) (by decide) (by decide)).1
  rw [h]
  decide

/-! ## Claim about the normalizer's frame condition -/

theorem standardize_result_inv (cs ys : List (Option ParsedTime))
    (adjs : List Adjustment) (h : standardize_result cs = some (ys, adjs)) :
    ys = cs.map (fun c =>
        c.map (fun p => { wall := canonical_naive p, offset := none })) ∧
      adjs = standardize_adjs cs := by
  have hu : uniform_tz cs = true := by
    by_contra hu
    unfold standardize_result to_datetime_mixed at h
    rw [if_neg hu] at h
    cases h
  rw [standardize_result_of_uniform cs hu] at h
  simp only [Option.some.injEq, Prod.mk.injEq] at h
  exact ⟨h.1.symm, h.2.symm⟩

theorem extractTimes_length (j : Nat) :
    ∀ (rows : List (List Value)) (ts : List (Option ParsedTime)),
      extractTimes j rows = some ts → ts.length = rows.length := by
  intro rows
  induction rows with
  | nil =>
    intro ts h
    unfold extractTimes at h
    simp only [Option.some.injEq] at h
    rw [← h]
    rfl
  | cons r rs ih =>
    intro ts h
    unfold extractTimes at h
    rcases hc : cellAt r j with n | s | p | _ <;> rw [hc] at h
    · cases h
    · cases h
    · rcases he : extractTimes j rs with _ | ps <;> rw [he] at h
      · cases h
      · simp only [Option.some.injEq] at h
        rw [← h]
        simp [ih ps he]
    · rcases he : extractTimes j rs with _ | ps <;> rw [he] at h
      · cases h
      · simp only [Option.some.injEq] at h
        rw [← h]
        simp [ih ps he]

theorem cellAt_zipWith_set (j k : Nat) (hk : k ≠ j) :
    ∀ (rows : List (List Value)) (ys : List (Option ParsedTime)) (i : Nat),
      rows.length = ys.length →
      cellAt ((List.zipWith (fun r c => r.set j (timeCellValue c)) rows ys).getD i []) k
        = cellAt (rows.getD i []) k := by
  intro rows
  induction rows with
  | nil =>
    intro ys i _
    rfl
  | cons r rs ih =>
    intro ys i hlen
    cases ys with
    | nil => simp at hlen
    | cons c cs =>
      cases i with
      | zero =>
        show cellAt (r.set j (timeCellValue c)) k = cellAt r k
        unfold cellAt
        rw [List.getD_eq_getElem?_getD, List.getD_eq_getElem?_getD]
        rw [List.getElem?_set_ne (by omega : j ≠ k)]
      | succ i2 =>
        show cellAt ((List.zipWith (fun r c => r.set j (timeCellValue c)) rs cs).getD i2 []) k
          = cellAt (rs.getD i2 []) k
        exact ih cs i2 (by simpa using hlen)

/-- Claim C10: normalization only touches the resolved timestamp column —
the returned frame has the same column names and row count, and every
cell outside the resolved column is identical to the input's (in
particular blood-glucose values are unchanged); the model is pure, so the
caller's frame itself (copied at line 15 of the source) is never
mutated. -/
theorem c10_only_timestamp_column_changes (df df2 : DataFrame)
    (dc : Option String) (h : _standardize_timestamp df dc = some df2) :
    df2.cols = df.cols ∧ df2.rows.length = df.rows.length ∧
      ∀ j, resolvedIdx df dc = some j →
        ∀ i k, k ≠ j → getEntry df2 i k = getEntry df i k := by
  unfold _standardize_timestamp at h
  split at h
  · cases h
  · rename_i j0 hr
    split at h
    · cases h
    · rename_i ts he
      split at h
      · cases h
      · rename_i ys adjs hs
        simp only [Option.some.injEq] at h
        have hlen1 : ts.length = df.rows.length := extractTimes_length j0 df.rows ts he
        have hlen2 : ys.length = ts.length := by
          have hinv := standardize_result_inv ts ys adjs hs
          rw [hinv.1]
          exact List.length_map _ _
        rw [← h]
        refine ⟨rfl, ?_, ?_⟩
        · show (List.zipWith (fun r c => r.set j0 (timeCellValue c)) df.rows ys).length
            = df.rows.length
          rw [List.length_zipWith, hlen2, hlen1, Nat.min_self]
        · intro j hj i k hk
          have hj0 : j0 = j := by
            rw [hr] at hj
            injection hj
          subst hj0
          show cellAt ((List.zipWith (fun r c => r.set j0 (timeCellValue c)) df.rows ys).getD i []) k
            = cellAt (df.rows.getD i []) k
          exact cellAt_zipWith_set j0 k hk df.rows ys i (by omega)

/-- Witness for C10 on a concrete blood-glucose frame: the bgl cell is
bit-identical after normalization. -/
theorem c10_only_timestamp_column_changes_witness :
    _standardize_timestamp
        { cols := ["date", "bgl"],
          rows := [[Value.time { wall := 90, offset := none }, Value.num 100]] }
        none =
      some { cols := ["date", "bgl"],
             rows := [[Value.time { wall := 120, offset := none }, Value.num 100]] } ∧
      getEntry { cols := ["date", "bgl"],
                 rows := [[Value.time { wall := 120, offset := none }, Value.num 100]] } 0 1 =
        getEntry { cols := ["date", "bgl"],
                   rows := [[Value.time { wall := 90, offset := none }, Value.num 100]] } 0 1 := by
  refine ⟨by decide, ?_⟩
  exact (c10_only_timestamp_column_changes
    { cols := ["date", "bgl"],
      rows := [[Value.time { wall := 90, offset := none }, Value.num 100]] }
    { cols := ["date", "bgl"],
      rows := [[Value.time { wall := 120, offset := none }, Value.num 100]] }
    none (by decide)).2.2 0 (by decide) 0 1 (by decide)
